import Mathlib

/-!
Shallow embedding of `src/policy.py` (classes `ProjectionPolicy` and `Shield`)
from the latent-spice repository, together with theorems settling the frozen
claims about it.

Modelling conventions:
* numpy arrays of rationals stand in for float arrays; scalars are `ℚ`.
* `np.linalg.norm` values are only ever compared with each other and with the
  initial bound `1e10`; since `x ↦ x^2` is strictly monotone on nonnegative
  reals, the embedding carries squared norms (`normSq`) everywhere and
  represents the initial bound `1e10` by `10^20`.  All comparisons in the
  source are therefore preserved exactly.
* `cvxopt.solvers.qp` is an external solver; it is modelled by an oracle
  function `qp` stored in the context.  Its raw outcome is either `exc`
  (the call raised an exception) or `res optimal x` (the returned dict,
  with `optimal = (status == "optimal")` and `x = sol["x"]`).
* `scipy.optimize.linprog` is modelled by an oracle `lp`.  The true call in
  `backup` receives the cost vector `-m` where `m` is built from the unit
  vector `best_proj / ‖best_proj‖`; since `‖best_proj‖` is an irrational
  square root, the oracle instead receives the pair consisting of the
  un-normalised vector (built from `best_proj` itself) and `‖best_proj‖²`,
  which determines the real cost vector exactly.
* Python exceptions that escape a function are modelled by `Except Err`.
  numpy raises `ValueError` when asked to build an array with a negative
  dimension (`np.eye((horizon-1)*u_dim)` for `horizon = 0`) and when asked to
  concatenate an empty list of arrays (`np.concatenate([bounds]*(horizon-1))`
  for `horizon ≤ 1`, and `np.concatenate([bounds]*horizon)` in `backup` for
  `horizon = 0`); these two failure modes appear as the guards in `tier1`,
  `tier2cand` and `backup` below.  Division of the zero vector by its zero
  norm produces NaN entries, which `scipy.optimize.linprog` rejects with a
  `ValueError`; this is the `divByZero` error in `backup`.
-/

namespace LatentSpice

/-- A real vector of length `n` (a 1-d numpy array). -/
abbrev Vec (n : ℕ) : Type := Fin n → ℚ

/-- A real `m × n` matrix (a 2-d numpy array). -/
abbrev Mat (m n : ℕ) : Type := Fin m → Fin n → ℚ

/-- Sum of `f` over `Fin n`, as a list sum (kernel friendly). -/
def finSum (n : ℕ) (f : Fin n → ℚ) : ℚ := ((List.finRange n).map f).sum

/-- Dot product of two vectors (`np.dot` on 1-d arrays). -/
def dotv {n : ℕ} (a b : Vec n) : ℚ := finSum n (fun i => a i * b i)

/-- Matrix product (`np.dot` on 2-d arrays). -/
def matMul {m n p : ℕ} (A : Mat m n) (B : Mat n p) : Mat m p :=
  fun i j => finSum n (fun k => A i k * B k j)

/-- Matrix-vector product (`np.dot` of a 2-d and a 1-d array). -/
def mulVec {m n : ℕ} (A : Mat m n) (v : Vec n) : Vec m :=
  fun i => dotv (A i) v

/-- Identity matrix (`np.eye`, and `cvxopt.spmatrix(1.0, range(n), range(n))`). -/
def eyeQ (n : ℕ) : Mat n n := fun i j => if i = j then 1 else 0

/-- Matrix power (`np.linalg.matrix_power`). -/
def matPow {n : ℕ} (A : Mat n n) : ℕ → Mat n n
  | 0 => eyeQ n
  | k + 1 => matMul (matPow A k) A

/-- Entrywise absolute value (`np.abs`). -/
def absM {m n : ℕ} (A : Mat m n) : Mat m n := fun i j => |A i j|

/-- Squared Euclidean norm; stands in for `np.linalg.norm` (see the header). -/
def normSq {n : ℕ} (v : Vec n) : ℚ := dotv v v

/-- One polytope from `safe_polys` / `unsafe_polys`: the source stores a single
`k × (s+1)` array `poly`; here `P = poly[:, :-1]` and `b = poly[:, -1]`. -/
structure Poly (s : ℕ) where
  k : ℕ
  P : Mat k s
  b : Vec k

/-- The split of the matrix returned by `env.get_matrix_at_point`:
`A = mat[:, :s_dim]`, `B = mat[:, s_dim:-1]`, `c = mat[:, -1]`, plus the
returned uncertainty radius `eps`. -/
structure LocalDyn (s u : ℕ) where
  A : Mat s s
  B : Mat s u
  c : Vec s
  eps : Vec s

/-- Raw outcome of one `cvxopt.solvers.qp` call: either the call raised an
exception (`exc`), or it returned a dict whose status is `"optimal"` iff
`optimal`, with solution array `x`. -/
inductive QPRaw (n : ℕ) where
  | exc : QPRaw n
  | res (optimal : Bool) (x : Vec n) : QPRaw n

/-- Errors modelling Python exceptions that escape `solve` / `backup`. -/
inductive Err where
  | dimMismatch
  | emptyConcat
  | divByZero
  | solverException
  | lpFailure
deriving DecidableEq

/-- The fixed data of one `ProjectionPolicy`: construction arguments plus the
two external solvers, modelled as oracles.  `getDyn` is
`env.get_matrix_at_point` applied to the concatenated point `(state, action)`,
already split into `A`, `B`, `c`, `eps`. -/
structure Ctx (s u : ℕ) where
  horizon : ℕ
  lowA : Vec u
  highA : Vec u
  safePolys : List (Poly s)
  unsafePolys : List (Poly s)
  getDyn : Vec s → Vec u → LocalDyn s u
  qp : (m n : ℕ) → Mat n n → Vec n → Mat m n → Vec m → QPRaw n
  lp : (n : ℕ) → Vec n → ℚ → Vec n → Vec n → Except Unit (Vec n)

/-- Membership test `np.all(np.dot(P_poly, state) + b_poly <= 0.0)`. -/
def inPoly {s : ℕ} (p : Poly s) (x : Vec s) : Bool :=
  decide (∀ i, mulVec p.P x i + p.b i ≤ 0)

/-!
## The horizon constraint builder

The loop at `policy.py` lines 188-200 fills, for each row `j = 1..H`,
the entries `F[j-1][t]`, `G[j-1][t]`, `h[j-1][t]` for `t = j, j-1, ..., 0`,
starting from the diagonal entry `t = j` and each time computing entry `t`
from entry `t+1`.  The functional translation indexes the same values by the
distance `j - t` from the diagonal.  Below, `Fjt j t`, `Gjt j t`, `hjt j t`
are the values the loop stores at (0-based row) `F[j-1][t]`, `G[j-1][t]`,
`h[j-1][t]`.
-/

/-- Value of `F[j-1][t]` as a function of the distance `d = j - t`:
`d = 0` is the assignment `F[j-1][j] = P_poly`, and each further step is the
assignment `F[j-1][t] = np.dot(F[j-1][t+1], A)`. -/
def Fpow {k s : ℕ} (P : Mat k s) (A : Mat s s) : ℕ → Mat k s
  | 0 => P
  | d + 1 => matMul (Fpow P A d) A

/-- The entry `F[j-1][t]` built by the loop (claim indexing `F[j][t]`). -/
def Fjt {k s : ℕ} (P : Mat k s) (A : Mat s s) (j t : ℕ) : Mat k s :=
  Fpow P A (j - t)

/-- The entry `G[j-1][t]` built by the loop: `np.dot(F[j-1][t+1], B)` below
the diagonal, and the explicit zero block `G[j-1][j] = np.zeros(...)` on the
diagonal (also used for the zero-padding of `G[j]` at line 212). -/
def Gjt {k s u : ℕ} (P : Mat k s) (A : Mat s s) (B : Mat s u) (j t : ℕ) :
    Mat k u :=
  if t < j then matMul (Fjt P A j (t + 1)) B else fun _ _ => 0

/-- Value of `h[j-1][t]` as a function of the distance `d = j - t`:
`d = 0` is `h[j-1][j] = b_poly`, and each further step is
`h[j-1][t] = np.dot(F[j-1][t+1], c) + h[j-1][t+1] + np.dot(np.abs(F[j-1][t+1]), eps)`. -/
def hseq {k s : ℕ} (P : Mat k s) (A : Mat s s) (b : Vec k) (c eps : Vec s) :
    ℕ → Vec k
  | 0 => b
  | d + 1 => fun i =>
      mulVec (Fpow P A d) c i + hseq P A b c eps d i +
        mulVec (absM (Fpow P A d)) eps i

/-- The entry `h[j-1][t]` built by the loop (claim indexing `h[j][t]`). -/
def hjt {k s : ℕ} (P : Mat k s) (A : Mat s s) (b : Vec k) (c eps : Vec s)
    (j t : ℕ) : Vec k :=
  hseq P A b c eps (j - t)

/-!
## Index arithmetic helpers
-/

theorem pos_of_lt_mulL {a H k : ℕ} (h : a < H * k) : 0 < k := by
  rcases Nat.eq_zero_or_pos k with h0 | h1
  · subst h0; simp at h
  · exact h1

theorem le_mulH {u H : ℕ} (hH : 1 ≤ H) : u ≤ H * u := by
  calc u = 1 * u := (Nat.one_mul u).symm
    _ ≤ H * u := Nat.mul_le_mul_right u hH

theorem add_lt_mulH {u H c : ℕ} (hH : 1 ≤ H) (hc : c < (H - 1) * u) :
    u + c < H * u := by
  cases H with
  | zero => omega
  | succ m =>
    have h1 : (m + 1 - 1) * u = m * u := by simp
    rw [h1] at hc
    have h2 : (m + 1) * u = m * u + u := Nat.succ_mul m u
    omega

/-!
## Assembly of the full constraint system (`policy.py` lines 202-227)

`nCons H k u` is `n_constraints = horizon * P_poly.shape[0] + 2 * horizon * u_dim`;
the decision vector has `total_vars = horizon * u_dim` components.
-/

/-- Number of rows of `M`: safety rows followed by action-bound rows. -/
abbrev nCons (H k u : ℕ) : ℕ := H * k + 2 * H * u

/-- The matrix `M`.  Row `i < H*k` is a safety row: writing `i = r*k + l`, it is
row `l` of `np.concatenate(G[r][:-1], axis=1)`, whose column block `t` is
`Gjt (r+1) t` (the zero-padding of line 212 and the drop of the final entry by
`G[r][:-1]` are exactly the `else` branch of `Gjt`).  The remaining rows are the
alternating `+I` / `-I` action-bound blocks of lines 219-227. -/
def bigM {s u : ℕ} (H : ℕ) (p : Poly s) (d : LocalDyn s u) :
    Mat (nCons H p.k u) (H * u) := fun i c =>
  have hu : 0 < u := pos_of_lt_mulL c.isLt
  if hi : i.val < H * p.k then
    have hk : 0 < p.k := pos_of_lt_mulL hi
    Gjt p.P d.A d.B (i.val / p.k + 1) (c.val / u)
      ⟨i.val % p.k, Nat.mod_lt _ hk⟩ ⟨c.val % u, Nat.mod_lt _ hu⟩
  else
    let i2 := i.val - H * p.k
    let r := i2 % (2 * u)
    if r < u then (if c.val = (i2 / (2 * u)) * u + r then 1 else 0)
    else (if c.val = (i2 / (2 * u)) * u + (r - u) then -1 else 0)

/-- The vector `bias`.  Safety row `i = r*k + l` is
`(h[r][0] + np.dot(F[r][0], state))[l]`; the bound rows alternate
`-action_space.high` and `action_space.low`. -/
def biasV {s u : ℕ} (H : ℕ) (p : Poly s) (d : LocalDyn s u)
    (lowA highA : Vec u) (state : Vec s) : Vec (nCons H p.k u) := fun i =>
  if hi : i.val < H * p.k then
    have hk : 0 < p.k := pos_of_lt_mulL hi
    hjt p.P d.A p.b d.c d.eps (i.val / p.k + 1) 0 ⟨i.val % p.k, Nat.mod_lt _ hk⟩ +
      mulVec (Fjt p.P d.A (i.val / p.k + 1) 0) state ⟨i.val % p.k, Nat.mod_lt _ hk⟩
  else
    have hu : 0 < u := by
      rcases Nat.eq_zero_or_pos u with h0 | h1
      · exfalso
        have hlt : i.val < H * p.k + 2 * H * u := i.isLt
        subst h0
        simp at hlt
        omega
      · exact h1
    let i2 := i.val - H * p.k
    let r := i2 % (2 * u)
    if hr : r < u then -(highA ⟨r, hr⟩)
    else lowA ⟨r - u, by
      have h2 : r < 2 * u := Nat.mod_lt _ (by omega)
      omega⟩

/-- The replicated per-step bounds
`np.concatenate([act_bounds] * steps, axis=0)`, one side at a time. -/
def repV {u : ℕ} (a : Vec u) (N : ℕ) : Vec N := fun i =>
  if h : 0 < u then a ⟨i.val % u, Nat.mod_lt _ h⟩ else 0

/-- The tier-1 objective matrix `P_fixed = 1e-4 * np.eye(n)`. -/
def scaledEye (n : ℕ) : Mat n n := fun i j => if i = j then 1 / 10000 else 0

/-- `M_first = M[:, :u_dim]`. -/
def mFirst {s u : ℕ} (H : ℕ) (p : Poly s) (d : LocalDyn s u) (hH : 1 ≤ H) :
    Mat (nCons H p.k u) u := fun i c =>
  bigM H p d i ⟨c.val, lt_of_lt_of_le c.isLt (le_mulH hH)⟩

/-- `M_rest = M[:, u_dim:]`. -/
def mRest {s u : ℕ} (H : ℕ) (p : Poly s) (d : LocalDyn s u) (hH : 1 ≤ H) :
    Mat (nCons H p.k u) ((H - 1) * u) := fun i c =>
  bigM H p d i ⟨u + c.val, add_lt_mulH hH c.isLt⟩

/-- `new_bias = bias + np.dot(M_first, action)`. -/
def newBias {s u : ℕ} (H : ℕ) (p : Poly s) (d : LocalDyn s u)
    (lowA highA : Vec u) (state : Vec s) (action : Vec u) (hH : 1 ≤ H) :
    Vec (nCons H p.k u) := fun i =>
  biasV H p d lowA highA state i + mulVec (mFirst H p d hH) action i

/-- `G_total = np.vstack((M_rest, -I, I))` for the tier-1 QP. -/
def tier1G {s u : ℕ} (H : ℕ) (p : Poly s) (d : LocalDyn s u) (hH : 1 ≤ H) :
    Mat (nCons H p.k u + 2 * ((H - 1) * u)) ((H - 1) * u) := fun i c =>
  if h1 : i.val < nCons H p.k u then mRest H p d hH ⟨i.val, h1⟩ c
  else if i.val < nCons H p.k u + (H - 1) * u then
    (if c.val = i.val - nCons H p.k u then -1 else 0)
  else (if c.val = i.val - nCons H p.k u - (H - 1) * u then 1 else 0)

/-- `h_total = np.hstack((-new_bias, -bounds_fixed[:,0], bounds_fixed[:,1]))`. -/
def tier1h {s u : ℕ} (H : ℕ) (p : Poly s) (d : LocalDyn s u)
    (lowA highA : Vec u) (state : Vec s) (action : Vec u) (hH : 1 ≤ H) :
    Vec (nCons H p.k u + 2 * ((H - 1) * u)) := fun i =>
  if h1 : i.val < nCons H p.k u then
    -(newBias H p d lowA highA state action hH ⟨i.val, h1⟩)
  else if h2 : i.val < nCons H p.k u + (H - 1) * u then
    -(repV lowA ((H - 1) * u) ⟨i.val - nCons H p.k u, by omega⟩)
  else repV highA ((H - 1) * u) ⟨i.val - nCons H p.k u - (H - 1) * u, by
    have h3 := i.isLt
    omega⟩

/-- The tier-1 attempt (lines 229-269): fix `u0 = action` and ask the solver
for feasibility over `u1..u_{H-1}`.  For `horizon = 0` the adjustment
`np.dot(M_first, action)` / `np.eye((horizon-1)*u_dim)` raises a `ValueError`
(negative or misaligned dimensions), and for `horizon = 1`
`np.concatenate([act_bounds] * 0, axis=0)` raises; both happen before the
`try` block, so they escape `solve`. -/
def tier1 {s u : ℕ} (ctx : Ctx s u) (d : LocalDyn s u) (state : Vec s)
    (action : Vec u) (p : Poly s) :
    Except Err (QPRaw ((ctx.horizon - 1) * u)) :=
  if hH : 2 ≤ ctx.horizon then
    .ok (ctx.qp (nCons ctx.horizon p.k u + 2 * ((ctx.horizon - 1) * u))
      ((ctx.horizon - 1) * u)
      (scaledEye ((ctx.horizon - 1) * u)) (fun _ => 0)
      (tier1G ctx.horizon p d (by omega))
      (tier1h ctx.horizon p d ctx.lowA ctx.highA state action (by omega)))
  else if ctx.horizon = 0 then .error .dimMismatch else .error .emptyConcat

/-- `fixed_feasible = (sol_fixed['status'] == 'optimal')`; an exception was
turned into `{'status': 'infeasible'}` by the `except` clause. -/
def isOptimal {n : ℕ} : QPRaw n → Bool
  | .res true _ => true
  | _ => false

/-- The tier-2 objective matrix `P_full = 1e-4*np.eye(n)` with `np.eye(u_dim)`
added on the leading `u_dim × u_dim` block. -/
def pFull (H u : ℕ) : Mat (H * u) (H * u) := fun i j =>
  (if i = j then 1 / 10000 else 0) + (if i = j ∧ i.val < u then 1 else 0)

/-- `q_full = -np.concatenate((action, np.zeros((horizon-1)*u_dim)))`. -/
def qFull {u : ℕ} (H : ℕ) (action : Vec u) : Vec (H * u) := fun i =>
  if h : i.val < u then -(action ⟨i.val, h⟩) else 0

/-- `full_sol[:u_dim]`. -/
def firstU {u H : ℕ} (hH : 1 ≤ H) (x : Vec (H * u)) : Vec u := fun i =>
  x ⟨i.val, lt_of_lt_of_le i.isLt (le_mulH hH)⟩

/-- The raw solver call of the tier-2 attempt (lines 281-287). -/
def tier2qp {s u : ℕ} (ctx : Ctx s u) (d : LocalDyn s u) (state : Vec s)
    (action : Vec u) (p : Poly s) : QPRaw (ctx.horizon * u) :=
  ctx.qp (nCons ctx.horizon p.k u) (ctx.horizon * u)
    (pFull ctx.horizon u) (qFull ctx.horizon action)
    (bigM ctx.horizon p d)
    (fun i => -(biasV ctx.horizon p d ctx.lowA ctx.highA state i))

/-- The tier-2 attempt (lines 275-292): re-optimise the full decision vector.
A non-optimal status (including a caught exception) yields no candidate
(`continue`); otherwise the candidate is `full_sol[:u_dim]` with score
`np.linalg.norm(candidate_u0 - action)` (squared here). -/
def tier2cand {s u : ℕ} (ctx : Ctx s u) (d : LocalDyn s u) (state : Vec s)
    (action : Vec u) (p : Poly s) : Except Err (Option (ℚ × Vec u)) :=
  if hH : 1 ≤ ctx.horizon then
    match tier2qp ctx d state action p with
    | .res true x =>
        .ok (some (normSq (fun i => firstU hH x i - action i), firstU hH x))
    | _ => .ok none
  else .error .dimMismatch

/-- Processing of one safe polytope whose membership test passed: tier 1,
falling back to tier 2 when tier 1 is not optimal. -/
def solvePoly {s u : ℕ} (ctx : Ctx s u) (d : LocalDyn s u) (state : Vec s)
    (action : Vec u) (p : Poly s) : Except Err (Option (ℚ × Vec u)) :=
  match tier1 ctx d state action p with
  | .error e => .error e
  | .ok r =>
      if isOptimal r then .ok (some (0, action))
      else tier2cand ctx d state action p

/-- The loop over `self.safe_polys` (lines 176-297), carrying
`(best_score, best_u0)`; the membership check skips a polytope, a missing
candidate leaves the pair unchanged, and a candidate replaces the pair only
when its score is strictly smaller. -/
def solveLoop {s u : ℕ} (ctx : Ctx s u) (d : LocalDyn s u) (state : Vec s)
    (action : Vec u) :
    List (Poly s) → ℚ → Option (Vec u) → Except Err (ℚ × Option (Vec u))
  | [], best, bu => .ok (best, bu)
  | p :: ps, best, bu =>
    if inPoly p state then
      match solvePoly ctx d state action p with
      | .error e => .error e
      | .ok none => solveLoop ctx d state action ps best bu
      | .ok (some c) =>
          if c.1 < best then solveLoop ctx d state action ps c.1 (some c.2)
          else solveLoop ctx d state action ps best bu
    else solveLoop ctx d state action ps best bu

/-!
## The backup controller (`backup`, lines 72-145)
-/

/-- The loop over `self.unsafe_polys`, carrying `(best_val, best_proj)`
(squared values, starting from `(1e20, 0)`).  `backup` has no `try` around its
solver call, so an exception escapes; the returned `sol['x']` is used without
a status check. -/
def backupLoop {s u : ℕ} (ctx : Ctx s u) (state : Vec s) :
    List (Poly s) → ℚ × Vec s → Except Err (ℚ × Vec s)
  | [], acc => .ok acc
  | p :: ps, acc =>
    match ctx.qp p.k s (eyeQ s) (fun _ => 0) p.P
        (fun i => -(p.b i) - mulVec p.P state i) with
    | .exc => .error .solverException
    | .res _ x =>
        if normSq x < acc.1 then backupLoop ctx state ps (normSq x, x)
        else backupLoop ctx state ps acc

/-- The objective vector `m` of lines 134-138, built from the un-normalised
direction `bp` (the oracle additionally receives `‖bp‖²`, see the header):
component `u*i0 + r` is `((A^(H-i0-1) B)ᵀ (-bp))[r]`. -/
def mVec {s u : ℕ} (H : ℕ) (d : LocalDyn s u) (bp : Vec s) : Vec (H * u) :=
  fun i =>
    have hu : 0 < u := pos_of_lt_mulL i.isLt
    Neg.neg (dotv (fun l => matMul (matPow d.A (H - i.val / u - 1)) d.B l
        ⟨i.val % u, Nat.mod_lt _ hu⟩) bp)

/-- The backup controller.  `best_proj / np.linalg.norm(best_proj)` produces
NaN entries when `best_proj` is the zero vector, which the subsequent
`scipy.optimize.linprog` call rejects (`divByZero`); with `horizon = 0`,
`np.concatenate([act_bounds] * 0, axis=0)` raises (`emptyConcat`). -/
def backup {s u : ℕ} (ctx : Ctx s u) (state : Vec s) : Except Err (Vec u) :=
  match backupLoop ctx state ctx.unsafePolys (10 ^ 20, fun _ => 0) with
  | .error e => .error e
  | .ok acc =>
    if normSq acc.2 = 0 then .error .divByZero
    else
      let d := ctx.getDyn state (fun _ => 0)
      if hH : 1 ≤ ctx.horizon then
        match ctx.lp (ctx.horizon * u) (mVec ctx.horizon d acc.2)
            (normSq acc.2) (repV ctx.lowA (ctx.horizon * u))
            (repV ctx.highA (ctx.horizon * u)) with
        | .error _ => .error .lpFailure
        | .ok x => .ok (firstU hH x)
      else .error .emptyConcat

/-- `ProjectionPolicy.solve` (lines 147-305), minus the mutation of
`saved_action`, which is handled by `solveSt` below.  A missing `action`
defaults to `np.zeros(u_dim)`; the local dynamics are computed once at
`(state, action)`; `best_score` starts at `1e10` (squared: `10^20`) and
`best_u0` at `None`; when no candidate was recorded the result is
`backup(original_state)`. -/
def solve {s u : ℕ} (ctx : Ctx s u) (state : Vec s)
    (actionO : Option (Vec u)) : Except Err (Vec u) :=
  let action := actionO.getD (fun _ => 0)
  let d := ctx.getDyn state action
  match solveLoop ctx d state action ctx.safePolys (10 ^ 20) none with
  | .error e => .error e
  | .ok (_, some u0) => .ok u0
  | .ok (_, none) => backup ctx state

/-!
## The mutable wrapper state and the `Shield`
-/

/-- The two cache fields of `ProjectionPolicy` (`__init__` sets both to
`None`). -/
structure ProjState (s u : ℕ) where
  saved_state : Option (Vec s)
  saved_action : Option (Vec u)

/-- `solve` including its effect on the instance: line 304 assigns
`self.saved_action = best_u0` and nothing else — in particular
`self.saved_state` is NOT written, despite the docstring of `solve`. -/
def solveSt {s u : ℕ} (ctx : Ctx s u) (ps : ProjState s u) (state : Vec s)
    (actionO : Option (Vec u)) : Except Err (Vec u × ProjState s u) :=
  match solve ctx state actionO with
  | .error e => .error e
  | .ok u0 => .ok (u0, { ps with saved_action := some u0 })

/-- `np.allclose(a, b)` with the default tolerances
`atol = 1e-8`, `rtol = 1e-5`. -/
def allclose {n : ℕ} (a b : Vec n) : Bool :=
  decide (∀ i, |a i - b i| ≤ 1 / 100000000 + (1 / 100000) * |b i|)

/-- `ProjectionPolicy.__call__` (lines 307-311): return the saved action when
`saved_state` is set and close to `state`, else re-solve with no proposed
action.  The hit branch is unreachable because `saved_state` is never
assigned; `getD` stands in for Python returning the field as-is. -/
def pcall {s u : ℕ} (ctx : Ctx s u) (ps : ProjState s u) (state : Vec s) :
    Except Err (Vec u × ProjState s u) :=
  match ps.saved_state with
  | some s0 =>
      if allclose state s0 then .ok (ps.saved_action.getD (fun _ => 0), ps)
      else solveSt ctx ps state none
  | none => solveSt ctx ps state none

/-- `ProjectionPolicy.unsafe` (lines 313-317). -/
def unsafeCk {s u : ℕ} (ctx : Ctx s u) (ps : ProjState s u) (state : Vec s)
    (action : Vec u) : Except Err (Bool × ProjState s u) :=
  match solveSt ctx ps state (some action) with
  | .error e => .error e
  | .ok (res, ps1) => .ok (!(allclose res action), ps1)

/-- The mutable counters of a `Shield` plus the wrapped projection policy
state. -/
structure ShieldSt (s u : ℕ) where
  shield_times : ℕ
  agent_times : ℕ
  total_time : ℚ
  ps : ProjState s u

/-- `Shield.__call__` (lines 335-345).  `tStart` and `tEnd` are the two
`time.time()` readings; the shielded branch returns before `end = time.time()`
is reached, so `total_time` is only updated on the agent branch. -/
def shieldCall {s u : ℕ} (ctx : Ctx s u) (agent : Vec s → Vec u)
    (st : ShieldSt s u) (state : Vec s) (tStart tEnd : ℚ) :
    Except Err (Vec u × ShieldSt s u) :=
  let proposed := agent state
  match unsafeCk ctx st.ps state proposed with
  | .error e => .error e
  | .ok (b, ps1) =>
    if b then
      match pcall ctx ps1 state with
      | .error e => .error e
      | .ok (act, ps2) =>
          .ok (act, { st with ps := ps2, shield_times := st.shield_times + 1 })
    else
      .ok (proposed,
        { st with
            ps := ps1
            agent_times := st.agent_times + 1
            total_time := st.total_time + (tEnd - tStart) })

/-- `Shield.reset_count` (lines 350-353). -/
def resetCount {s u : ℕ} (st : ShieldSt s u) : ShieldSt s u :=
  { st with shield_times := 0, agent_times := 0, total_time := 0 }

/-!
## Derived notions used to state and prove the claims
-/

/-- The candidate (if any) that one polytope contributes: `none` when the
membership test fails, when tier 2 is not optimal, or when the processing
raises. -/
def candf {s u : ℕ} (ctx : Ctx s u) (d : LocalDyn s u) (state : Vec s)
    (action : Vec u) (p : Poly s) : Option (ℚ × Vec u) :=
  if inPoly p state then
    match solvePoly ctx d state action p with
    | .ok (some c) => some c
    | _ => none
  else none

/-- The candidates contributed by a list of polytopes, in enumeration order. -/
def candList {s u : ℕ} (ctx : Ctx s u) (d : LocalDyn s u) (state : Vec s)
    (action : Vec u) (polys : List (Poly s)) : List (ℚ × Vec u) :=
  polys.filterMap (candf ctx d state action)

/-- The pure selection rule of the polytope loop: scan the candidates,
replacing the running `(best_score, best_u0)` exactly when the new score is
strictly smaller. -/
def selB {u : ℕ} : ℚ → Option (Vec u) → List (ℚ × Vec u) → ℚ × Option (Vec u)
  | b, bu, [] => (b, bu)
  | b, bu, c :: l => if c.1 < b then selB c.1 (some c.2) l else selB b bu l

/-!
## Concrete data for witnesses and counterexamples
-/

deriving instance DecidableEq for Except

/-- Concrete data for the C1 witness. -/
def c1P : Mat 1 1 := fun _ _ => 2

def c1A : Mat 1 1 := fun _ _ => 3

def c1B : Mat 1 1 := fun _ _ => 1

def c1b : Vec 1 := fun _ => 5

def c1c : Vec 1 := fun _ => 7

def c1eps : Vec 1 := fun _ => 1

/-- Polytope used in witness scenarios: its normal matrix is zero and its
offset is `-1`, so every state is a member. -/
def pSafe : Poly 1 := ⟨1, fun _ _ => 0, fun _ => -1⟩

/-- Local dynamics used in witness scenarios. -/
def dynW : Vec 1 → Vec 1 → LocalDyn 1 1 :=
  fun _ _ => ⟨fun _ _ => 1, fun _ _ => 1, fun _ => 0, fun _ => 0⟩

/-- Context for the C2 witness: horizon 2, one always-satisfied safe
polytope, a solver oracle whose tier-1 call (its problem has `8` rows)
reports optimal. -/
def ctxC2 : Ctx 1 1 :=
  ⟨2, fun _ => -10, fun _ => 10, [pSafe], [pSafe], dynW,
   fun m _ _ _ _ _ => if m = 8 then QPRaw.res true (fun _ => 0)
     else QPRaw.res true (fun _ => 1),
   fun _ _ _ _ _ => .ok (fun _ => 0)⟩

def stateW : Vec 1 := fun _ => 0

def actC2 : Vec 1 := fun _ => 3

/-- Zero vector, the default proposed action. -/
def act0 : Vec 1 := fun _ => 0

/-- A proposed action whose distance to the action box exceeds the initial
bound `1e10`. -/
def actBig : Vec 1 := fun _ => 2 * 10 ^ 10

/-- Context for the C3 counterexample: tier 1 infeasible (problem with `8`
rows), tier 2 optimal at `u0 = 0` (problem with `6` rows), backup solvable. -/
def ctxC3x : Ctx 1 1 :=
  ⟨2, fun _ => -10, fun _ => 10, [pSafe], [pSafe], dynW,
   fun m _ _ _ _ _ =>
     if m = 8 then QPRaw.res false (fun _ => 0)
     else if m = 6 then QPRaw.res true (fun _ => 0)
     else QPRaw.res true (fun _ => 1),
   fun _ _ _ _ _ => .ok (fun _ => 5)⟩

/-- Context for the C3 witness: two identical safe polytopes, tier 1
infeasible, tier 2 optimal at `u0 = 1`, producing two tied candidates. -/
def ctxC3w : Ctx 1 1 :=
  ⟨2, fun _ => -10, fun _ => 10, [pSafe, pSafe], [pSafe], dynW,
   fun m _ _ _ _ _ =>
     if m = 8 then QPRaw.res false (fun _ => 0)
     else if m = 6 then QPRaw.res true (fun _ => 1)
     else QPRaw.res true (fun _ => 1),
   fun _ _ _ _ _ => .ok (fun _ => 5)⟩

/-- Context for the C6 witness: the tier-1 solver call raises, the tier-2
call reports non-optimal, the backup solver succeeds. -/
def ctxC6 : Ctx 1 1 :=
  ⟨2, fun _ => -10, fun _ => 10, [pSafe], [pSafe], dynW,
   fun m _ _ _ _ _ =>
     if m = 8 then QPRaw.exc
     else if m = 6 then QPRaw.res false (fun _ => 0)
     else QPRaw.res true (fun _ => 1),
   fun _ _ _ _ _ => .ok (fun _ => 7)⟩

/-- A context with horizon `0`, for the C7 witness. -/
def ctxC7 : Ctx 1 1 :=
  ⟨0, fun _ => -10, fun _ => 10, [pSafe], [pSafe], dynW,
   fun _ _ _ _ _ _ => QPRaw.res true (fun _ => 1),
   fun _ _ _ _ _ => .ok (fun _ => 5)⟩

/-- A context with horizon `1` and no safe polytope, so that every solve goes
through the backup controller and succeeds: the backup solver returns the
unit direction `1` and the LP returns the constant plan `5`. -/
def ctxRun : Ctx 1 1 :=
  ⟨1, fun _ => -10, fun _ => 10, [], [pSafe], dynW,
   fun _ _ _ _ _ _ => QPRaw.res true (fun _ => 1),
   fun _ _ _ _ _ => .ok (fun _ => 5)⟩

/-- A context with horizon `1` and no unsafe polytope, for the C10 witness. -/
def ctxC10 : Ctx 1 1 :=
  ⟨1, fun _ => -10, fun _ => 10, [], [], dynW,
   fun _ _ _ _ _ _ => QPRaw.res true (fun _ => 1),
   fun _ _ _ _ _ => .ok (fun _ => 5)⟩

/-- Fresh projection-policy state (both cache fields `None`). -/
def psNone : ProjState 1 1 := ⟨none, none⟩

/-- Projection-policy state after one solve in `ctxRun`. -/
def ps1Run : ProjState 1 1 := ⟨none, some (fun _ => 5)⟩

/-- Fresh shield state. -/
def stShield : ShieldSt 1 1 := ⟨0, 0, 0, psNone⟩

/-- Shield state after one shielded decision in `ctxRun`. -/
def st2Run : ShieldSt 1 1 := ⟨1, 0, 0, ps1Run⟩

/-- The wrapped agent used in witness scenarios: always proposes `0`. -/
def agentW : Vec 1 → Vec 1 := fun _ _ => 0

/-- The action returned by `solve` in `ctxRun` (via the backup LP). -/
def aRun : Vec 1 := fun _ => 5


/-!
## Basic facts about sums and squared norms
-/

theorem finSum_eq_sum (n : ℕ) (f : Fin n → ℚ) : finSum n f = ∑ i, f i := by
  rw [finSum, Fin.sum_univ_def]

theorem listMap_zero_sum {α : Type} (l : List α) :
    (l.map (fun _ => (0 : ℚ))).sum = 0 := by
  induction l with
  | nil => rfl
  | cons a l ih => simp [ih]

theorem normSq_nonneg {n : ℕ} (v : Vec n) : 0 ≤ normSq v := by
  rw [normSq, dotv, finSum_eq_sum]
  exact Finset.sum_nonneg fun i _ => mul_self_nonneg (v i)

theorem normSq_eq_zero {n : ℕ} (v : Vec n) (h : normSq v = 0) : ∀ i, v i = 0 := by
  rw [normSq, dotv, finSum_eq_sum] at h
  intro i
  have hz := (Finset.sum_eq_zero_iff_of_nonneg
    (fun j _ => mul_self_nonneg (v j))).mp h i (Finset.mem_univ i)
  exact mul_self_eq_zero.mp hz

/-!
## Claim C1: the horizon constraint system invariant
-/

/-- C1.  For every safe polytope `(P_poly, b_poly)`, local dynamics
`(A, B, c, eps)` and horizon `H ≥ 1`, the constraint system built by
`ProjectionPolicy.solve` satisfies, for every `j` in `1..H`:
`F[j][j] = P_poly`, `h[j][j] = b_poly`, and for every `t < j`:
`F[j][t] = F[j][t+1]·A`, `G[j][t] = F[j][t+1]·B`, and
`h[j][t] = F[j][t+1]·c + h[j][t+1] + |F[j][t+1]|·eps`. -/
theorem horizonSystem_invariant {k s u : ℕ} (P : Mat k s) (A : Mat s s)
    (B : Mat s u) (b : Vec k) (c eps : Vec s) (H j t : ℕ)
    (hH : 1 ≤ H) (hj1 : 1 ≤ j) (hjH : j ≤ H) (ht : t < j) :
    Fjt P A j j = P ∧ hjt P A b c eps j j = b ∧
    Fjt P A j t = matMul (Fjt P A j (t + 1)) A ∧
    Gjt P A B j t = matMul (Fjt P A j (t + 1)) B ∧
    hjt P A b c eps j t = fun i =>
      mulVec (Fjt P A j (t + 1)) c i + hjt P A b c eps j (t + 1) i +
        mulVec (absM (Fjt P A j (t + 1))) eps i := by
  have hd : j - t = (j - (t + 1)) + 1 := by omega
  refine ⟨?_, ?_, ?_, ?_, ?_⟩
  · show Fpow P A (j - j) = P
    rw [Nat.sub_self]
    rfl
  · show hseq P A b c eps (j - j) = b
    rw [Nat.sub_self]
    rfl
  · show Fpow P A (j - t) = matMul (Fpow P A (j - (t + 1))) A
    rw [hd]
    rfl
  · show Gjt P A B j t = matMul (Fjt P A j (t + 1)) B
    rw [Gjt, if_pos ht]
  · show hseq P A b c eps (j - t) = _
    rw [hd]
    rfl

theorem horizonSystem_invariant_witness :
    ((1 : ℕ) ≤ 1 ∧ (0 : ℕ) < 1) ∧
    (Fjt c1P c1A 1 1 = c1P ∧ hjt c1P c1A c1b c1c c1eps 1 1 = c1b ∧
     Fjt c1P c1A 1 0 = matMul (Fjt c1P c1A 1 1) c1A ∧
     Gjt c1P c1A c1B 1 0 = matMul (Fjt c1P c1A 1 1) c1B ∧
     hjt c1P c1A c1b c1c c1eps 1 0 = fun i =>
       mulVec (Fjt c1P c1A 1 1) c1c i + hjt c1P c1A c1b c1c c1eps 1 1 i +
         mulVec (absM (Fjt c1P c1A 1 1)) c1eps i) :=
  ⟨⟨by decide, by decide⟩,
   horizonSystem_invariant c1P c1A c1B c1b c1c c1eps 1 1 0
     (by decide) (by decide) (by decide) (by decide)⟩

/-!
## Properties of the selection rule
-/

theorem selB_fst_le_init {u : ℕ} (l : List (ℚ × Vec u)) :
    ∀ b bu, (selB b bu l).1 ≤ b := by
  induction l with
  | nil => intro b bu; exact le_refl b
  | cons a l ih =>
    intro b bu
    by_cases h : a.1 < b
    · simp only [selB, if_pos h]
      exact le_of_lt (lt_of_le_of_lt (ih a.1 (some a.2)) h)
    · simp only [selB, if_neg h]
      exact ih b bu

theorem selB_fst_le_mem {u : ℕ} (l : List (ℚ × Vec u)) (c : ℚ × Vec u)
    (hc : c ∈ l) : ∀ b bu, (selB b bu l).1 ≤ c.1 := by
  induction l with
  | nil => cases hc
  | cons a l ih =>
    intro b bu
    rcases List.mem_cons.mp hc with h0 | h0
    · subst h0
      by_cases h : c.1 < b
      · simp only [selB, if_pos h]
        exact selB_fst_le_init l c.1 (some c.2)
      · simp only [selB, if_neg h]
        exact le_trans (selB_fst_le_init l b bu) (not_lt.mp h)
    · by_cases h : a.1 < b
      · simp only [selB, if_pos h]
        exact ih h0 a.1 (some a.2)
      · simp only [selB, if_neg h]
        exact ih h0 b bu

theorem selB_result {u : ℕ} (l : List (ℚ × Vec u)) :
    ∀ b bu, selB b bu l = (b, bu) ∨
      ∃ c ∈ l, selB b bu l = (c.1, some c.2) := by
  induction l with
  | nil => intro b bu; exact Or.inl rfl
  | cons a l ih =>
    intro b bu
    by_cases h : a.1 < b
    · simp only [selB, if_pos h]
      rcases ih a.1 (some a.2) with h0 | ⟨c, hc, h0⟩
      · exact Or.inr ⟨a, List.mem_cons_self a l, h0⟩
      · exact Or.inr ⟨c, List.mem_cons_of_mem a hc, h0⟩
    · simp only [selB, if_neg h]
      rcases ih b bu with h0 | ⟨c, hc, h0⟩
      · exact Or.inl h0
      · exact Or.inr ⟨c, List.mem_cons_of_mem a hc, h0⟩

theorem selB_no_update {u : ℕ} (l : List (ℚ × Vec u)) :
    ∀ b bu, (∀ c ∈ l, ¬c.1 < b) → selB b bu l = (b, bu) := by
  induction l with
  | nil => intro b bu _; rfl
  | cons a l ih =>
    intro b bu h
    have ha : ¬a.1 < b := h a (List.mem_cons_self a l)
    simp only [selB, if_neg ha]
    exact ih b bu fun c hc => h c (List.mem_cons_of_mem a hc)

theorem selB_first_min {u : ℕ} (l1 : List (ℚ × Vec u)) :
    ∀ (c : ℚ × Vec u) (l2 : List (ℚ × Vec u)) (b : ℚ) (bu : Option (Vec u)),
      c.1 < b → (∀ c2 ∈ l1, c.1 < c2.1) → (∀ c2 ∈ l2, c.1 ≤ c2.1) →
      selB b bu (l1 ++ c :: l2) = (c.1, some c.2) := by
  induction l1 with
  | nil =>
    intro c l2 b bu hb _ hmin
    simp only [List.nil_append, selB, if_pos hb]
    exact selB_no_update l2 c.1 (some c.2) fun c2 hc2 => not_lt.mpr (hmin c2 hc2)
  | cons a l1 ih =>
    intro c l2 b bu hb hfirst hmin
    have ha : c.1 < a.1 := hfirst a (List.mem_cons_self a l1)
    have hfirst2 : ∀ c2 ∈ l1, c.1 < c2.1 :=
      fun c2 hc2 => hfirst c2 (List.mem_cons_of_mem a hc2)
    by_cases h : a.1 < b
    · simp only [List.cons_append, selB, if_pos h]
      exact ih c l2 a.1 (some a.2) ha hfirst2 hmin
    · simp only [List.cons_append, selB, if_neg h]
      exact ih c l2 b bu hb hfirst2 hmin

/-!
## Totality of the polytope processing for `horizon ≥ 2`, and the bridge
between the loop and the selection rule
-/

theorem tier1_isOk {s u : ℕ} (ctx : Ctx s u) (d : LocalDyn s u)
    (state : Vec s) (action : Vec u) (p : Poly s) (h2 : 2 ≤ ctx.horizon) :
    ∃ r, tier1 ctx d state action p = .ok r := by
  unfold tier1
  rw [dif_pos h2]
  exact ⟨_, rfl⟩

theorem tier1_ok_horizon {s u : ℕ} (ctx : Ctx s u) (d : LocalDyn s u)
    (state : Vec s) (action : Vec u) (p : Poly s) (r : QPRaw ((ctx.horizon - 1) * u))
    (h : tier1 ctx d state action p = .ok r) : 2 ≤ ctx.horizon := by
  by_contra h2
  unfold tier1 at h
  rw [dif_neg h2] at h
  by_cases h0 : ctx.horizon = 0
  · rw [if_pos h0] at h
    exact Except.noConfusion h
  · rw [if_neg h0] at h
    exact Except.noConfusion h

theorem tier2cand_isOk {s u : ℕ} (ctx : Ctx s u) (d : LocalDyn s u)
    (state : Vec s) (action : Vec u) (p : Poly s) (h1 : 1 ≤ ctx.horizon) :
    ∃ r, tier2cand ctx d state action p = .ok r := by
  unfold tier2cand
  rw [dif_pos h1]
  cases hq : tier2qp ctx d state action p with
  | exc => exact ⟨none, rfl⟩
  | res b x =>
    cases b with
    | true => exact ⟨_, rfl⟩
    | false => exact ⟨none, rfl⟩

theorem solvePoly_isOk {s u : ℕ} (ctx : Ctx s u) (d : LocalDyn s u)
    (state : Vec s) (action : Vec u) (p : Poly s) (h2 : 2 ≤ ctx.horizon) :
    ∃ r, solvePoly ctx d state action p = .ok r := by
  obtain ⟨r, hr⟩ := tier1_isOk ctx d state action p h2
  unfold solvePoly
  rw [hr]
  dsimp only
  by_cases h : isOptimal r
  · rw [if_pos h]
    exact ⟨_, rfl⟩
  · rw [if_neg h]
    exact tier2cand_isOk ctx d state action p (by omega)

theorem solveLoop_eq_selB {s u : ℕ} (ctx : Ctx s u) (d : LocalDyn s u)
    (state : Vec s) (action : Vec u) (h2 : 2 ≤ ctx.horizon)
    (l : List (Poly s)) :
    ∀ b bu, solveLoop ctx d state action l b bu =
      .ok (selB b bu (candList ctx d state action l)) := by
  induction l with
  | nil => intro b bu; rfl
  | cons p ps ih =>
    intro b bu
    by_cases hm : inPoly p state
    · obtain ⟨r, hr⟩ := solvePoly_isOk ctx d state action p h2
      cases r with
      | none =>
        have hf : candf ctx d state action p = none := by
          unfold candf
          rw [if_pos hm, hr]
        simp only [solveLoop, if_pos hm, hr]
        simp only [candList, List.filterMap_cons, hf]
        exact ih b bu
      | some c =>
        have hf : candf ctx d state action p = some c := by
          unfold candf
          rw [if_pos hm, hr]
        simp only [solveLoop, if_pos hm, hr]
        simp only [candList, List.filterMap_cons, hf]
        by_cases hlt : c.1 < b
        · simp only [selB, if_pos hlt]
          exact ih c.1 (some c.2)
        · simp only [selB, if_neg hlt]
          exact ih b bu
    · have hf : candf ctx d state action p = none := by
        unfold candf
        rw [if_neg hm]
      simp only [solveLoop, if_neg hm]
      simp only [candList, List.filterMap_cons, hf]
      exact ih b bu

theorem candf_eq_some {s u : ℕ} (ctx : Ctx s u) (d : LocalDyn s u)
    (state : Vec s) (action : Vec u) (p : Poly s) (c : ℚ × Vec u)
    (h : candf ctx d state action p = some c) :
    inPoly p state = true ∧ solvePoly ctx d state action p = .ok (some c) := by
  unfold candf at h
  by_cases hm : inPoly p state
  · refine ⟨hm, ?_⟩
    rw [if_pos hm] at h
    cases hs : solvePoly ctx d state action p with
    | error e => rw [hs] at h; simp at h
    | ok o =>
      cases o with
      | none => rw [hs] at h; simp at h
      | some c2 =>
        rw [hs] at h
        simp only at h
        rw [Option.some_inj.mp h]
  · rw [if_neg hm] at h
    simp at h

/-- Every recorded candidate has a nonnegative score, and a zero score forces
the candidate action to equal the proposed action (over exact arithmetic,
`‖u0 - action‖ = 0` implies `u0 = action`). -/
theorem cand_score_spec {s u : ℕ} (ctx : Ctx s u) (d : LocalDyn s u)
    (state : Vec s) (action : Vec u) (polys : List (Poly s)) (c : ℚ × Vec u)
    (hmem : c ∈ candList ctx d state action polys) :
    0 ≤ c.1 ∧ (c.1 = 0 → c.2 = action) := by
  obtain ⟨p, hp, hc⟩ := List.mem_filterMap.mp hmem
  obtain ⟨hm, hs⟩ := candf_eq_some ctx d state action p c hc
  unfold solvePoly at hs
  cases ht : tier1 ctx d state action p with
  | error e => rw [ht] at hs; simp at hs
  | ok r =>
    rw [ht] at hs
    dsimp only at hs
    by_cases hopt : isOptimal r
    · rw [if_pos hopt] at hs
      have hc0 : (0, action) = c := by
        have := Except.ok.inj hs
        exact Option.some_inj.mp this
      rw [← hc0]
      exact ⟨le_refl 0, fun _ => rfl⟩
    · rw [if_neg hopt] at hs
      have h1 : 1 ≤ ctx.horizon := by
        have := tier1_ok_horizon ctx d state action p r ht
        omega
      unfold tier2cand at hs
      rw [dif_pos h1] at hs
      cases hq : tier2qp ctx d state action p with
      | exc => rw [hq] at hs; simp at hs
      | res bb x =>
        cases bb with
        | false => rw [hq] at hs; simp at hs
        | true =>
          rw [hq] at hs
          dsimp only at hs
          have hc0 :
              (normSq (fun i => firstU h1 x i - action i), firstU h1 x) = c := by
            have := Except.ok.inj hs
            exact Option.some_inj.mp this
          rw [← hc0]
          constructor
          · exact normSq_nonneg _
          · intro h0
            have hz := normSq_eq_zero _ h0
            funext i
            have := hz i
            dsimp only
            linarith

/-!
## Claim C2: a tier-1 pass returns the proposed action exactly
-/

/-- C2.  If for some safe polytope containing `x0` the tier-1 QP (first
action fixed to `u0`) is feasible, then `ProjectionPolicy.solve` returns
exactly the proposed action `u0`: the recorded candidate has score `0`, no
candidate can beat it, and any other score-`0` candidate is itself equal to
`u0`, so the returned action is `u0` — never a deviating tier-2 or backup
result. -/
theorem tier1_pass_returns_proposed {s u : ℕ} (ctx : Ctx s u) (state : Vec s)
    (action : Vec u)
    (h : ∃ p ∈ ctx.safePolys, inPoly p state = true ∧
      ∃ x, tier1 ctx (ctx.getDyn state action) state action p =
        .ok (.res true x)) :
    solve ctx state (some action) = .ok action := by
  obtain ⟨p, hp, hm, x, ht⟩ := h
  have h2 : 2 ≤ ctx.horizon :=
    tier1_ok_horizon ctx (ctx.getDyn state action) state action p _ ht
  have hsp : solvePoly ctx (ctx.getDyn state action) state action p =
      .ok (some (0, action)) := by
    unfold solvePoly
    rw [ht]
    dsimp only
    rw [if_pos (show isOptimal (QPRaw.res true x) = true from rfl)]
  have hmem : (0, action) ∈
      candList ctx (ctx.getDyn state action) state action ctx.safePolys :=
    List.mem_filterMap.mpr ⟨p, hp, by unfold candf; rw [if_pos hm, hsp]⟩
  have hloop := solveLoop_eq_selB ctx (ctx.getDyn state action) state action h2
    ctx.safePolys (10 ^ 20) none
  unfold solve
  dsimp only [Option.getD]
  rw [hloop]
  rcases selB_result
      (candList ctx (ctx.getDyn state action) state action ctx.safePolys)
      (10 ^ 20) none with hres | ⟨c, hc, hres⟩
  · exfalso
    have hle := selB_fst_le_mem _ _ hmem (10 ^ 20) none
    rw [hres] at hle
    simp only at hle
    norm_num at hle
  · have hle := selB_fst_le_mem _ _ hmem (10 ^ 20) none
    rw [hres] at hle
    simp only at hle
    have hnn := cand_score_spec ctx (ctx.getDyn state action) state action
      ctx.safePolys c hc
    have hc10 : c.1 = 0 := le_antisymm hle hnn.1
    have hc2 : c.2 = action := hnn.2 hc10
    rw [hres]
    dsimp only
    rw [hc2]

theorem tier1_pass_returns_proposed_witness :
    (pSafe ∈ ctxC2.safePolys ∧ inPoly pSafe stateW = true ∧
      tier1 ctxC2 (ctxC2.getDyn stateW actC2) stateW actC2 pSafe =
        .ok (.res true (fun _ => 0))) ∧
    solve ctxC2 stateW (some actC2) = .ok actC2 :=
  ⟨⟨List.mem_cons_self pSafe [], by with_unfolding_all decide, rfl⟩,
   tier1_pass_returns_proposed ctxC2 stateW actC2
     ⟨pSafe, List.mem_cons_self pSafe [], by with_unfolding_all decide,
      ⟨fun _ => 0, rfl⟩⟩⟩

/-!
## Claim C3: candidate selection (corrected)

The loop initialises `best_score = 1e10`, so a candidate whose deviation
norm is at least `1e10` (squared: `10^20`) is never selected even when it is
the unique candidate; the counterexample below exhibits such a run, where
`solve` returns the backup action instead.  The amended statement restricts
the minimum-score/first-wins rule to candidates beating the initial bound.
-/

set_option maxRecDepth 2000 in
/-- C3 counterexample.  With one safe polytope whose tier-2 QP is optimal at
`u0 = 0` and the proposed action `2e10`, the unique candidate has (squared)
score `4e20 ≥ 1e20`; `solve` does not return this minimum-score candidate but
the backup action `5`. -/
theorem solve_ignores_candidate_above_bound :
    candList ctxC3x (ctxC3x.getDyn stateW actBig) stateW actBig
      ctxC3x.safePolys = [((4 * 10 ^ 20 : ℚ), fun _ => 0)] ∧
    solve ctxC3x stateW (some actBig) = .ok (fun _ => 5) ∧
    ((fun _ => (5 : ℚ)) : Vec 1) ≠ (fun _ => (0 : ℚ)) := by
  refine ⟨?_, ?_, ?_⟩
  · with_unfolding_all rfl
  · with_unfolding_all rfl
  · with_unfolding_all decide

/-- C3 (amended).  Among the candidates produced by the safe polytopes, in
enumeration order, let `c` be one with minimal score that strictly beats
every earlier candidate (tie-break: first wins) and whose score beats the
initial bound `1e10` (squared: `10^20`).  Then `solve` returns `c`.
(Candidates with score at least `1e10` are never selected; if no candidate
beats the bound, the backup action is returned instead.) -/
theorem solve_selects_first_min {s u : ℕ} (ctx : Ctx s u) (state : Vec s)
    (action : Vec u) (h2 : 2 ≤ ctx.horizon)
    (l1 l2 : List (ℚ × Vec u)) (c : ℚ × Vec u)
    (hsplit : candList ctx (ctx.getDyn state action) state action
      ctx.safePolys = l1 ++ c :: l2)
    (hbound : c.1 < 10 ^ 20)
    (hfirst : ∀ c2 ∈ l1, c.1 < c2.1)
    (hmin : ∀ c2 ∈ l2, c.1 ≤ c2.1) :
    solve ctx state (some action) = .ok c.2 := by
  have hloop := solveLoop_eq_selB ctx (ctx.getDyn state action) state action h2
    ctx.safePolys (10 ^ 20) none
  unfold solve
  dsimp only [Option.getD]
  rw [hloop, hsplit, selB_first_min l1 c l2 (10 ^ 20) none hbound hfirst hmin]

theorem solve_selects_first_min_witness :
    (2 ≤ ctxC3w.horizon ∧
     candList ctxC3w (ctxC3w.getDyn stateW act0) stateW act0 ctxC3w.safePolys
       = [] ++ ((1 : ℚ), fun _ => (1 : ℚ)) :: [((1 : ℚ), fun _ => (1 : ℚ))] ∧
     (1 : ℚ) < 10 ^ 20) ∧
    solve ctxC3w stateW (some act0) = .ok (fun _ => 1) :=
  ⟨⟨by decide, by with_unfolding_all decide, by with_unfolding_all decide⟩,
   solve_selects_first_min ctxC3w stateW act0 (by decide)
     [] [((1 : ℚ), fun _ => (1 : ℚ))] ((1 : ℚ), fun _ => (1 : ℚ))
     (by with_unfolding_all decide) (by with_unfolding_all decide)
     (by simp) (by with_unfolding_all decide)⟩

/-!
## Claim C6: solver failures are not fatal
-/

theorem solveLoop_none {s u : ℕ} (ctx : Ctx s u) (d : LocalDyn s u)
    (state : Vec s) (action : Vec u) (l : List (Poly s)) :
    ∀ b bu,
      (∀ q ∈ l, inPoly q state = true →
        solvePoly ctx d state action q = .ok none) →
      solveLoop ctx d state action l b bu = .ok (b, bu) := by
  induction l with
  | nil => intro b bu _; rfl
  | cons p ps ih =>
    intro b bu h
    by_cases hm : inPoly p state
    · have hs := h p (List.mem_cons_self p ps) hm
      simp only [solveLoop, if_pos hm, hs]
      exact ih b bu fun q hq => h q (List.mem_cons_of_mem p hq)
    · simp only [solveLoop, if_neg hm]
      exact ih b bu fun q hq => h q (List.mem_cons_of_mem p hq)

/-- C6.  A solver failure is not fatal: (1) when the tier-1 call returns
without optimal status (a caught exception or an infeasible report), the
polytope is retried with the tier-2 QP; (2) when the tier-2 call is also not
optimal, the polytope contributes no candidate; (3) a candidate-less polytope
is simply skipped by the loop; and (4) when every safe polytope containing
the state contributes no candidate, `solve` returns the result of the backup
controller instead of raising. -/
theorem solver_failure_not_fatal {s u : ℕ} (ctx : Ctx s u) (d : LocalDyn s u)
    (state : Vec s) (action : Vec u) (p : Poly s) :
    (∀ r, tier1 ctx d state action p = .ok r → isOptimal r = false →
      solvePoly ctx d state action p = tier2cand ctx d state action p) ∧
    (1 ≤ ctx.horizon → isOptimal (tier2qp ctx d state action p) = false →
      tier2cand ctx d state action p = .ok none) ∧
    (∀ ps b bu, inPoly p state = true →
      solvePoly ctx d state action p = .ok none →
      solveLoop ctx d state action (p :: ps) b bu =
        solveLoop ctx d state action ps b bu) ∧
    (d = ctx.getDyn state action →
      (∀ q ∈ ctx.safePolys, inPoly q state = true →
        solvePoly ctx d state action q = .ok none) →
      solve ctx state (some action) = backup ctx state) := by
  refine ⟨?_, ?_, ?_, ?_⟩
  · intro r h hopt
    unfold solvePoly
    rw [h]
    dsimp only
    rw [if_neg (by simp [hopt])]
  · intro h1 hopt
    unfold tier2cand
    rw [dif_pos h1]
    cases hq : tier2qp ctx d state action p with
    | exc => rfl
    | res bb x =>
      cases bb with
      | false => rfl
      | true => rw [hq] at hopt; simp [isOptimal] at hopt
  · intro ps b bu hm hs
    simp only [solveLoop, if_pos hm, hs]
  · intro hd hall
    subst hd
    unfold solve
    dsimp only [Option.getD]
    rw [solveLoop_none ctx (ctx.getDyn state action) state action
      ctx.safePolys (10 ^ 20) none hall]

theorem solver_failure_not_fatal_witness :
    (tier1 ctxC6 (ctxC6.getDyn stateW act0) stateW act0 pSafe = .ok .exc ∧
     isOptimal (QPRaw.exc : QPRaw ((ctxC6.horizon - 1) * 1)) = false ∧
     solvePoly ctxC6 (ctxC6.getDyn stateW act0) stateW act0 pSafe =
       tier2cand ctxC6 (ctxC6.getDyn stateW act0) stateW act0 pSafe) ∧
    (isOptimal (tier2qp ctxC6 (ctxC6.getDyn stateW act0) stateW act0 pSafe)
       = false ∧
     tier2cand ctxC6 (ctxC6.getDyn stateW act0) stateW act0 pSafe
       = .ok none) ∧
    (solveLoop ctxC6 (ctxC6.getDyn stateW act0) stateW act0 [pSafe]
       (10 ^ 20) none =
     solveLoop ctxC6 (ctxC6.getDyn stateW act0) stateW act0 [] (10 ^ 20) none) ∧
    solve ctxC6 stateW (some act0) = backup ctxC6 stateW := by
  have hthm := solver_failure_not_fatal ctxC6 (ctxC6.getDyn stateW act0)
    stateW act0 pSafe
  refine ⟨⟨rfl, rfl, hthm.1 .exc rfl rfl⟩, ⟨rfl, hthm.2.1 (by decide) rfl⟩,
    ?_, ?_⟩
  · exact hthm.2.2.1 [] (10 ^ 20) none (by with_unfolding_all decide) rfl
  · refine hthm.2.2.2 rfl ?_
    intro q hq hm
    have hqe : q = pSafe := List.mem_singleton.mp hq
    subst hqe
    rfl


/-!
## Claim C7: a horizon below 1 makes every call raise
-/

theorem solvePoly_err_h0 {s u : ℕ} (ctx : Ctx s u) (d : LocalDyn s u)
    (state : Vec s) (action : Vec u) (p : Poly s) (h0 : ctx.horizon = 0) :
    solvePoly ctx d state action p = .error .dimMismatch := by
  unfold solvePoly tier1
  rw [dif_neg (by omega), if_pos h0]

theorem solveLoop_err_h0 {s u : ℕ} (ctx : Ctx s u) (d : LocalDyn s u)
    (state : Vec s) (action : Vec u) (h0 : ctx.horizon = 0)
    (l : List (Poly s)) : ∀ b,
    solveLoop ctx d state action l b none = .error .dimMismatch ∨
    solveLoop ctx d state action l b none = .ok (b, none) := by
  induction l with
  | nil => intro b; exact Or.inr rfl
  | cons p ps ih =>
    intro b
    by_cases hm : inPoly p state
    · exact Or.inl (by
        simp only [solveLoop, if_pos hm,
          solvePoly_err_h0 ctx d state action p h0])
    · simp only [solveLoop, if_neg hm]
      exact ih b

theorem backup_err_h0 {s u : ℕ} (ctx : Ctx s u) (state : Vec s)
    (h0 : ctx.horizon = 0) : ∃ e, backup ctx state = .error e := by
  unfold backup
  cases hb : backupLoop ctx state ctx.unsafePolys (10 ^ 20, fun _ => 0) with
  | error e => exact ⟨e, rfl⟩
  | ok acc =>
    by_cases hz : normSq acc.2 = 0
    · exact ⟨.divByZero, by dsimp only; rw [if_pos hz]⟩
    · refine ⟨.emptyConcat, ?_⟩
      dsimp only
      rw [if_neg hz, dif_neg (by omega)]

/-- C7.  For horizon `H < 1` (over the natural numbers, `H = 0`) the shield
rejects the call at call time rather than silently producing a result: both
a direct `ProjectionPolicy.solve` and a full `Shield.__call__` raise
(`np.dot`/`np.eye` with misaligned or negative dimensions inside the polytope
loop, or `np.concatenate` of an empty list inside `backup`). -/
theorem invalid_horizon_rejected {s u : ℕ} (ctx : Ctx s u) (state : Vec s)
    (actionO : Option (Vec u)) (agent : Vec s → Vec u) (st : ShieldSt s u)
    (t0 t1 : ℚ) (hH : ctx.horizon < 1) :
    (∃ e, solve ctx state actionO = .error e) ∧
    (∃ e, shieldCall ctx agent st state t0 t1 = .error e) := by
  have h0 : ctx.horizon = 0 := by omega
  have hsolve : ∀ aO : Option (Vec u), ∃ e, solve ctx state aO = .error e := by
    intro aO
    unfold solve
    dsimp only
    rcases solveLoop_err_h0 ctx (ctx.getDyn state (aO.getD fun _ => 0)) state
        (aO.getD fun _ => 0) h0 ctx.safePolys (10 ^ 20) with hl | hl
    · exact ⟨.dimMismatch, by rw [hl]⟩
    · obtain ⟨e, hb⟩ := backup_err_h0 ctx state h0
      exact ⟨e, by rw [hl]; dsimp only; exact hb⟩
  refine ⟨hsolve actionO, ?_⟩
  obtain ⟨e, hs⟩ := hsolve (some (agent state))
  exact ⟨e, by simp only [shieldCall, unsafeCk, solveSt, hs]⟩

theorem invalid_horizon_rejected_witness :
    ctxC7.horizon < 1 ∧
    (∃ e, solve ctxC7 stateW none = .error e) ∧
    (∃ e, shieldCall ctxC7 agentW stShield stateW 0 1 = .error e) :=
  ⟨by decide,
   (invalid_horizon_rejected ctxC7 stateW none agentW stShield 0 1
     (by decide)).1,
   (invalid_horizon_rejected ctxC7 stateW none agentW stShield 0 1
     (by decide)).2⟩


/-!
## Claim C5: the decision counters
-/

/-- C5.  After `reset_count`, `shield_times = agent_times = 0`, and every
completed `Shield.__call__` increments exactly one of the two counters by
exactly `1`, leaving the other unchanged (so both are monotonically
non-decreasing between resets). -/
theorem counters_increment {s u : ℕ} (ctx : Ctx s u) (agent : Vec s → Vec u)
    (st : ShieldSt s u) (state : Vec s) (t0 t1 : ℚ) :
    (resetCount st).shield_times = 0 ∧ (resetCount st).agent_times = 0 ∧
    ∀ a st2, shieldCall ctx agent st state t0 t1 = .ok (a, st2) →
      (st2.shield_times = st.shield_times + 1 ∧
        st2.agent_times = st.agent_times) ∨
      (st2.agent_times = st.agent_times + 1 ∧
        st2.shield_times = st.shield_times) := by
  refine ⟨rfl, rfl, ?_⟩
  intro a st2 h
  unfold shieldCall at h
  dsimp only at h
  cases hu : unsafeCk ctx st.ps state (agent state) with
  | error e => rw [hu] at h; simp at h
  | ok pr =>
    obtain ⟨b, ps1⟩ := pr
    rw [hu] at h
    dsimp only at h
    cases b with
    | true =>
      cases hp : pcall ctx ps1 state with
      | error e => rw [hp] at h; simp at h
      | ok pr2 =>
        obtain ⟨act, ps2⟩ := pr2
        rw [hp] at h
        dsimp only at h
        have h2 := Except.ok.inj h
        have hst : st2 =
            { st with ps := ps2, shield_times := st.shield_times + 1 } :=
          (congrArg Prod.snd h2).symm
        rw [hst]
        exact Or.inl ⟨rfl, rfl⟩
    | false =>
      have h2 := Except.ok.inj h
      have hst : st2 =
          { st with
              ps := ps1
              agent_times := st.agent_times + 1
              total_time := st.total_time + (t1 - t0) } :=
        (congrArg Prod.snd h2).symm
      rw [hst]
      exact Or.inr ⟨rfl, rfl⟩

theorem counters_increment_witness :
    (resetCount stShield).shield_times = 0 ∧
    (resetCount stShield).agent_times = 0 ∧
    ((st2Run.shield_times = stShield.shield_times + 1 ∧
        st2Run.agent_times = stShield.agent_times) ∨
     (st2Run.agent_times = stShield.agent_times + 1 ∧
        st2Run.shield_times = stShield.shield_times)) :=
  ⟨(counters_increment ctxRun agentW stShield stateW 0 1).1,
   (counters_increment ctxRun agentW stShield stateW 0 1).2.1,
   (counters_increment ctxRun agentW stShield stateW 0 1).2.2 aRun st2Run
     (by with_unfolding_all rfl)⟩

/-!
## Claim C8: `total_time` on the shielded branch (code bug)

`Shield.__call__` computes `start = time.time()` on every call, but the
shielded branch returns at line 341, before `end = time.time()` and the
`total_time` update at lines 343-344 are reached, so `total_time` does not
grow on the shielded branch, contradicting the claim that every decision
accumulates its wall-clock time.
-/

/-- C8 (code bug).  On the shielded branch (the proposed action is rejected
and the projection is returned), `Shield.__call__` leaves `total_time`
unchanged: the early `return act` skips the accumulation, so the claim that
`total_time` grows on both branches is false of the code. -/
theorem shield_branch_skips_total_time {s u : ℕ} (ctx : Ctx s u)
    (agent : Vec s → Vec u) (st : ShieldSt s u) (state : Vec s) (t0 t1 : ℚ)
    (ps1 : ProjState s u) (act : Vec u) (ps2 : ProjState s u)
    (hu : unsafeCk ctx st.ps state (agent state) = .ok (true, ps1))
    (hp : pcall ctx ps1 state = .ok (act, ps2)) :
    ∃ st2, shieldCall ctx agent st state t0 t1 = .ok (act, st2) ∧
      st2.total_time = st.total_time ∧
      st2.shield_times = st.shield_times + 1 := by
  refine ⟨{ st with ps := ps2, shield_times := st.shield_times + 1 },
    ?_, rfl, rfl⟩
  simp [shieldCall, hu, hp]

theorem shield_branch_skips_total_time_witness :
    unsafeCk ctxRun stShield.ps stateW (agentW stateW) = .ok (true, ps1Run) ∧
    pcall ctxRun ps1Run stateW = .ok (fun _ => 5, ps1Run) ∧
    ∃ st2, shieldCall ctxRun agentW stShield stateW 0 1 =
        .ok (fun _ => 5, st2) ∧
      st2.total_time = stShield.total_time ∧
      st2.shield_times = stShield.shield_times + 1 :=
  ⟨by with_unfolding_all rfl, by with_unfolding_all rfl,
   shield_branch_skips_total_time ctxRun agentW stShield stateW 0 1 ps1Run
     (fun _ => 5) ps1Run (by with_unfolding_all rfl)
     (by with_unfolding_all rfl)⟩


/-!
## Claim C9: the missing proposed action defaults to the zero vector
-/

theorem mulVec_zero {m n : ℕ} (A : Mat m n) (i : Fin m) :
    mulVec A (fun _ => 0) i = 0 := by
  unfold mulVec dotv finSum
  rw [show (fun k => A i k * (fun _ : Fin n => (0 : ℚ)) k) =
      fun _ : Fin n => (0 : ℚ) from funext fun k => mul_zero (A i k)]
  exact listMap_zero_sum _

/-- C9.  When `solve` is called without a proposed action it behaves exactly
as if the zero vector had been proposed: (1) `solve state None` equals
`solve state (some 0)`; (2) the tier-1 substitution `bias + M_first·0` leaves
the bias unchanged, i.e. tier 1 fixes `u0 = 0`; (3) the tier-2 linear term
`q_full = -concat(0, 0)` is zero, so the deviation penalty pulls `u0` toward
zero; (4) a `ProjectionPolicy.__call__` cache miss re-solves with no proposed
action; and (5) the re-solve inside `Shield.__call__` returns the value of
`solve state None`. -/
theorem default_action_is_zero {s u : ℕ} (ctx : Ctx s u) (state : Vec s) :
    (solve ctx state none = solve ctx state (some (fun _ => 0))) ∧
    (∀ (H : ℕ) (p : Poly s) (d : LocalDyn s u) (lowA highA : Vec u)
        (hH : 1 ≤ H) (i : Fin (nCons H p.k u)),
      newBias H p d lowA highA state (fun _ => 0) hH i =
        biasV H p d lowA highA state i) ∧
    (∀ (H : ℕ) (i : Fin (H * u)), qFull H (fun _ => (0 : ℚ)) i = 0) ∧
    (∀ ps : ProjState s u, ps.saved_state = none →
      pcall ctx ps state = solveSt ctx ps state none) ∧
    (∀ (agent : Vec s → Vec u) (st : ShieldSt s u) (t0 t1 : ℚ)
        (ps1 : ProjState s u) (a : Vec u),
      st.ps.saved_state = none →
      unsafeCk ctx st.ps state (agent state) = .ok (true, ps1) →
      solve ctx state none = .ok a →
      ∃ st2, shieldCall ctx agent st state t0 t1 = .ok (a, st2)) := by
  refine ⟨rfl, ?_, ?_, ?_, ?_⟩
  · intro H p d lowA highA hH i
    unfold newBias
    rw [mulVec_zero]
    exact add_zero _
  · intro H i
    unfold qFull
    split <;> simp
  · intro ps hps
    unfold pcall
    rw [hps]
  · intro agent st t0 t1 ps1 a hsaved hu hsolve
    have hps1 : ps1.saved_state = none := by
      unfold unsafeCk at hu
      cases hss : solveSt ctx st.ps state (some (agent state)) with
      | error e => rw [hss] at hu; simp at hu
      | ok pr =>
        obtain ⟨res, ps1x⟩ := pr
        rw [hss] at hu
        dsimp only at hu
        have hinj := Except.ok.inj hu
        have hps1x : ps1x = ps1 := congrArg Prod.snd hinj
        unfold solveSt at hss
        cases hsv : solve ctx state (some (agent state)) with
        | error e => rw [hsv] at hss; simp at hss
        | ok v =>
          rw [hsv] at hss
          dsimp only at hss
          have h2 := Except.ok.inj hss
          have h3 : ps1x = { st.ps with saved_action := some v } :=
            (congrArg Prod.snd h2).symm
          rw [← hps1x, h3]
          exact hsaved
    have hpc : pcall ctx ps1 state =
        .ok (a, { ps1 with saved_action := some a }) := by
      simp only [pcall, solveSt, hps1, hsolve]
    refine ⟨{ st with
        ps := { ps1 with saved_action := some a }
        shield_times := st.shield_times + 1 }, ?_⟩
    simp [shieldCall, hu, hpc]

theorem default_action_is_zero_witness :
    (solve ctxRun stateW none = solve ctxRun stateW (some (fun _ => 0))) ∧
    (pcall ctxRun psNone stateW = solveSt ctxRun psNone stateW none) ∧
    (∃ st2, shieldCall ctxRun agentW stShield stateW 0 1 =
        .ok (fun _ => 5, st2)) :=
  ⟨(default_action_is_zero ctxRun stateW).1,
   (default_action_is_zero ctxRun stateW).2.2.2.1 psNone rfl,
   (default_action_is_zero ctxRun stateW).2.2.2.2 agentW stShield 0 1 ps1Run
     (fun _ => 5) rfl (by with_unfolding_all rfl) (by with_unfolding_all rfl)⟩

/-!
## Claim C4: the decision cache is never consulted (code bug)

The docstring of `ProjectionPolicy.solve` says the method "sets the saved
action and state", and `__call__` is written to serve a repeated state from
`saved_state`/`saved_action`.  But line 304 assigns only `saved_action`;
`saved_state` is assigned exactly once, to `None`, in `__init__`, so the
cache test at line 308 never fires and every call re-solves.
-/

/-- C4 (code bug).  (1) `solve` leaves `saved_state` untouched; (2) with
`saved_state = None` (its permanent value) a `__call__` re-solves with no
proposed action; (3) hence after one `__call__` the cache is still unset and
a second identical call re-solves again, returning the same action only
because `solve` is deterministic — not from the memo the claim (and the
docstring of `solve`) describes. -/
theorem cache_is_never_used {s u : ℕ} (ctx : Ctx s u) (ps : ProjState s u)
    (state : Vec s) :
    (∀ aO u0 ps2, solveSt ctx ps state aO = .ok (u0, ps2) →
      ps2.saved_state = ps.saved_state) ∧
    (ps.saved_state = none → pcall ctx ps state = solveSt ctx ps state none) ∧
    (∀ a1 ps1, ps.saved_state = none →
      pcall ctx ps state = .ok (a1, ps1) →
      ps1.saved_state = none ∧
      pcall ctx ps1 state = solveSt ctx ps1 state none ∧
      pcall ctx ps1 state =
        .ok (a1, { ps1 with saved_action := some a1 })) := by
  have hpres : ∀ (aO : Option (Vec u)) u0 ps2,
      solveSt ctx ps state aO = .ok (u0, ps2) →
      ps2.saved_state = ps.saved_state := by
    intro aO u0 ps2 h
    unfold solveSt at h
    cases hs : solve ctx state aO with
    | error e => rw [hs] at h; simp at h
    | ok v =>
      rw [hs] at h
      dsimp only at h
      have h2 := Except.ok.inj h
      have h3 : ps2 = { ps with saved_action := some v } :=
        (congrArg Prod.snd h2).symm
      rw [h3]
  refine ⟨hpres, ?_, ?_⟩
  · intro hn
    unfold pcall
    rw [hn]
  · intro a1 ps1 hn hp
    have hpc : pcall ctx ps state = solveSt ctx ps state none := by
      unfold pcall
      rw [hn]
    rw [hpc] at hp
    have hs : ∃ v, solve ctx state none = .ok v ∧ v = a1 ∧
        ps1 = { ps with saved_action := some v } := by
      unfold solveSt at hp
      cases hsv : solve ctx state none with
      | error e => rw [hsv] at hp; simp at hp
      | ok v =>
        rw [hsv] at hp
        dsimp only at hp
        have h2 := Except.ok.inj hp
        exact ⟨v, rfl, congrArg Prod.fst h2, (congrArg Prod.snd h2).symm⟩
    obtain ⟨v, hv, hva, hvps⟩ := hs
    have hps1n : ps1.saved_state = none := by rw [hvps]; exact hn
    have hpc1 : pcall ctx ps1 state = solveSt ctx ps1 state none := by
      unfold pcall
      rw [hps1n]
    refine ⟨hps1n, hpc1, ?_⟩
    subst hva
    rw [hpc1]
    unfold solveSt
    rw [hv]

theorem cache_is_never_used_witness :
    (solveSt ctxRun psNone stateW none = .ok (aRun, ps1Run) ∧
     ps1Run.saved_state = psNone.saved_state) ∧
    (pcall ctxRun psNone stateW = solveSt ctxRun psNone stateW none) ∧
    (pcall ctxRun psNone stateW = .ok (aRun, ps1Run) ∧
     ps1Run.saved_state = none ∧
     pcall ctxRun ps1Run stateW = solveSt ctxRun ps1Run stateW none ∧
     pcall ctxRun ps1Run stateW =
       .ok (aRun, { ps1Run with saved_action := some aRun })) :=
  ⟨⟨by with_unfolding_all rfl,
    (cache_is_never_used ctxRun psNone stateW).1 none aRun ps1Run
      (by with_unfolding_all rfl)⟩,
   (cache_is_never_used ctxRun psNone stateW).2.1 rfl,
   by
     have h3 := (cache_is_never_used ctxRun psNone stateW).2.2 aRun ps1Run rfl
       (by with_unfolding_all rfl)
     exact ⟨by with_unfolding_all rfl, h3.1, h3.2.1, h3.2.2⟩⟩

/-!
## Claim C10: the backup normalisation divides by zero
-/

theorem normSq_zero_vec {n : ℕ} : normSq (fun _ : Fin n => (0 : ℚ)) = 0 := by
  unfold normSq dotv finSum
  rw [show (fun i => (fun _ : Fin n => (0 : ℚ)) i * (fun _ : Fin n => (0 : ℚ)) i) =
      fun _ : Fin n => (0 : ℚ) from funext fun i => mul_zero 0]
  exact listMap_zero_sum _

theorem backupLoop_zero {s u : ℕ} (ctx : Ctx s u) (state : Vec s)
    (l : List (Poly s)) :
    ∀ acc : ℚ × Vec s,
      (∀ p ∈ l, ∃ bb x,
        ctx.qp p.k s (eyeQ s) (fun _ => 0) p.P
          (fun i => -(p.b i) - mulVec p.P state i) = .res bb x ∧
        (normSq x = 0 ∨ 10 ^ 20 ≤ normSq x)) →
      normSq acc.2 = 0 → acc.1 ≤ 10 ^ 20 →
      ∃ acc2, backupLoop ctx state l acc = .ok acc2 ∧ normSq acc2.2 = 0 := by
  induction l with
  | nil => intro acc _ h0 _; exact ⟨acc, rfl, h0⟩
  | cons p ps ih =>
    intro acc hl h0 hb
    obtain ⟨bb, x, hq, hx⟩ := hl p (List.mem_cons_self p ps)
    have hl2 := fun q hq2 => hl q (List.mem_cons_of_mem p hq2)
    simp only [backupLoop, hq]
    by_cases hlt : normSq x < acc.1
    · rw [if_pos hlt]
      rcases hx with hx0 | hx1
      · exact ih (normSq x, x) hl2 hx0 (by dsimp only; rw [hx0]; norm_num)
      · exact absurd hlt (not_lt.mpr (le_trans hb hx1))
    · rw [if_neg hlt]
      exact ih acc hl2 h0 hb

/-- C10.  `ProjectionPolicy.backup` divides `best_proj` by its own norm; when
the list of unsafe polytopes is empty, or every unsafe-polytope QP returns a
solution that is zero or of norm at least the initial bound `1e10` (squared:
`10^20`), `best_proj` remains the zero vector and the normalisation divides
by zero (NaN entries that the subsequent `linprog` call rejects), so `backup`
yields a well-defined action only when some unsafe polytope produces a
successfully solved nonzero projection below the bound. -/
theorem backup_requires_nonzero_projection {s u : ℕ} (ctx : Ctx s u)
    (state : Vec s)
    (h : ∀ p ∈ ctx.unsafePolys, ∃ bb x,
      ctx.qp p.k s (eyeQ s) (fun _ => 0) p.P
        (fun i => -(p.b i) - mulVec p.P state i) = .res bb x ∧
      (normSq x = 0 ∨ 10 ^ 20 ≤ normSq x)) :
    backup ctx state = .error .divByZero := by
  obtain ⟨acc2, hbl, hz⟩ := backupLoop_zero ctx state ctx.unsafePolys
    (10 ^ 20, fun _ => 0) h normSq_zero_vec (le_refl _)
  unfold backup
  rw [hbl]
  dsimp only
  rw [if_pos hz]

theorem backup_requires_nonzero_projection_witness :
    (∀ p ∈ ctxC10.unsafePolys, ∃ bb x,
      ctxC10.qp p.k 1 (eyeQ 1) (fun _ => 0) p.P
        (fun i => -(p.b i) - mulVec p.P stateW i) = .res bb x ∧
      (normSq x = 0 ∨ 10 ^ 20 ≤ normSq x)) ∧
    backup ctxC10 stateW = .error .divByZero :=
  ⟨fun p hp => absurd hp (List.not_mem_nil p),
   backup_requires_nonzero_projection ctxC10 stateW
     (fun p hp => absurd hp (List.not_mem_nil p))⟩


end LatentSpice
